import Mathlib

/-!
Verification of the `ponto` dotfile deployer's reconciliation core.

The development shallowly embeds the Rust sources:
  - `src/file_type.rs`   → `FileType`, `FileType.tryFrom`
  - `src/symlink.rs`     → `SymlinkState`, `SymlinkState.ofTypes`, `Symlink.create`
  - `src/template.rs`    → `TemplateState`, `TemplateState.ofTypes`, `Template.render`
  - `src/config.rs`      → `hashMapInsert`/`hashMapOfList` (the `HashMap` collect
                           semantics), `merge_variables`, `load_config_variables`,
                           `Configuration.ordered_by_dependencies`
  - `src/hook.rs`        → `Hook.run`, `remove_templated_scripts`, `extension`,
                           `withExtension`

Filesystem interaction is embedded by passing the observed classifications and
the results of the fallible primitives (`canonicalize`, `read_to_string`,
process spawning) as explicit parameters, and by recording the mutations a
function performs as an explicit list of `FsOp` values, in the order the Rust
code issues them.  A returned second component `false` marks early return with
an error (`?` propagation in Rust); mutation primitives themselves are taken to
succeed, since every claim here is about which mutations are attempted.
-/

/-- Paths are modelled as plain strings. -/
abbrev FsPath := String

/-- Embeds `FileType` from `src/file_type.rs`: classification of a path.
`file none` is a regular file whose bytes are not valid UTF-8. -/
inductive FileType where
  | File : Option String → FileType
  | SymbolicLink : FsPath → FileType
  | Directory : FileType
  | Missing : FileType
deriving DecidableEq

/-- Outcome of `fs::read_to_string` as matched in `FileType::try_from`. -/
inductive ReadResult where
  | ok : String → ReadResult
  | invalidData : ReadResult
  | notFound : ReadResult
  | otherError : ReadResult
deriving DecidableEq

/-- The raw observations `FileType::try_from` makes about one path:
the result of `fs::read_link` (`some target` on success), of `is_dir`,
and of `fs::read_to_string`. -/
structure RawObservation where
  readLink : Option FsPath
  isDir : Bool
  readToString : ReadResult
deriving DecidableEq

/-- Embeds `FileType::try_from` (src/file_type.rs lines 18-33): a symlink is reported
first, then a directory, then the text read is attempted; `none` models the
propagated error of the final arm. -/
def FileType.tryFrom (o : RawObservation) : Option FileType :=
  match o.readLink with
  | some target => some (.SymbolicLink target)
  | none =>
    if o.isDir then some .Directory
    else
      match o.readToString with
      | .ok f => some (.File (some f))
      | .invalidData => some (.File none)
      | .notFound => some .Missing
      | .otherError => none

/-- Embeds `SymlinkState` from `src/symlink.rs`. -/
inductive SymlinkState where
  | Identical
  | OnlySourceExists
  | OnlyTargetExists
  | TargetNotSymlink
  | Changed
  | BothMissing
deriving DecidableEq

/-- Embeds `SymlinkState::from` (src/symlink.rs lines 58-80).  `realPath` is the
`PathBuf::canonicalize` capability; its failure (propagated by `?` in the
second arm) is modelled as `none`. -/
def SymlinkState.ofTypes (sourcePath : FsPath) (sourceType linkType : FileType)
    (realPath : FsPath → Option FsPath) : Option SymlinkState :=
  match sourceType, linkType with
  | .Missing, .SymbolicLink _ => some .OnlyTargetExists
  | _, .SymbolicLink t =>
    match realPath sourcePath with
    | some c => some (if t = c then .Identical else .Changed)
    | none => none
  | .Missing, .Missing => some .BothMissing
  | _, .Missing => some .OnlySourceExists
  | _, _ => some .TargetNotSymlink

/-- A filesystem mutation attempted by the reconciler. -/
inductive FsOp where
  | createDirAll : FsPath → FsOp
  | removeFile : FsPath → FsOp
  | symlink : FsPath → FsPath → FsOp
  | writeFile : FsPath → String → FsOp
deriving DecidableEq

/-- Embeds `Symlink::create` (src/symlink.rs lines 10-45).  The two classifications
are the already-successful results of `FileType::try_from` on `from` and `to`;
`parentOfTarget` is `to.parent().unwrap()`; `targetExists` is `to.exists()`.
Returns the list of mutations issued in order, and whether the call returned
`Ok` (`false` models `?` propagation out of the state computation or the second
`real_path` call). -/
def Symlink.create (sourcePath targetPath : FsPath) (sourceType targetType : FileType)
    (realPath : FsPath → Option FsPath) (parentOfTarget : FsPath)
    (targetExists force : Bool) : List FsOp × Bool :=
  match SymlinkState.ofTypes sourcePath sourceType targetType realPath with
  | none => ([], false)
  | some result =>
    let shouldContinue : Bool :=
      match result with
      | .Changed | .BothMissing | .OnlyTargetExists | .TargetNotSymlink => false
      | .OnlySourceExists => true
      | .Identical => force
    if shouldContinue then
      let dirOps := [FsOp.createDirAll parentOfTarget]
      let removeOps := if force && targetExists then [FsOp.removeFile targetPath] else []
      match realPath sourcePath with
      | none => (dirOps ++ removeOps, false)
      | some rp => (dirOps ++ removeOps ++ [FsOp.symlink rp targetPath], true)
    else ([], true)

/-- Embeds `TemplateState` from `src/template.rs`. -/
inductive TemplateState where
  | Identical
  | OnlySourceExists
  | Changed
  | TargetNotRegularFile
  | BothMissing
deriving DecidableEq

/-- Embeds `TemplateState::from` (src/template.rs lines 62-75): the two `File`
content options are compared directly. -/
def TemplateState.ofTypes (sourceType templated : FileType) : TemplateState :=
  match sourceType, templated with
  | .File t, .File c => if t = c then .Identical else .Changed
  | .File _, .Missing => .OnlySourceExists
  | .Missing, .Missing => .BothMissing
  | _, _ => .TargetNotRegularFile

/-- Embeds `Template::render` (src/template.rs lines 13-50).  `renderCap` is the
handlebars `render_template` capability, `readSource` the result of the
`fs::read_to_string(from)` call, `targetExists` is `to.exists()` and
`parentOfTarget` is `to.parent().unwrap()`.  Mutations are listed in issue
order: the forced removal precedes the read/render, directory creation and
write follow them. -/
def Template.render (sourceType targetType : FileType)
    (renderCap : String → List (String × String) → Option String)
    (vars : List (String × String)) (readSource : Option String)
    (parentOfTarget targetPath : FsPath) (targetExists force : Bool) :
    List FsOp × Bool :=
  let templateType := TemplateState.ofTypes sourceType targetType
  let shouldContinue : Bool :=
    match templateType with
    | .TargetNotRegularFile | .BothMissing => false
    | .OnlySourceExists | .Changed => true
    | .Identical => force
  if shouldContinue then
    let removeOps := if force && targetExists then [FsOp.removeFile targetPath] else []
    match readSource with
    | none => (removeOps, false)
    | some content =>
      match renderCap content vars with
      | none => (removeOps, false)
      | some rendered =>
        (removeOps ++ [FsOp.createDirAll parentOfTarget, FsOp.writeFile targetPath rendered],
          true)
  else ([], true)



/-- Insertion into a `HashMap` modelled as an association list with unique
keys: an existing binding for the key is replaced, otherwise the pair is
appended. -/
def hashMapInsert (m : List (String × String)) (kv : String × String) :
    List (String × String) :=
  if m.any (fun e => e.1 = kv.1) then
    m.map (fun e => if e.1 = kv.1 then kv else e)
  else m ++ [kv]

/-- Embeds `HashMap::from_iter` / `collect` over a list of pairs: later bindings for
the same key override earlier ones. -/
def hashMapOfList (l : List (String × String)) : List (String × String) :=
  l.foldl hashMapInsert []

/-- Lookup in the association-list model of a `HashMap` (first binding wins;
`hashMapInsert` keeps keys unique). -/
def lookupVar : List (String × String) → String → Option String
  | [], _ => none
  | (k, v) :: rest, key => if k = key then some v else lookupVar rest key

/-- Embeds `merge_variables` (src/config.rs lines 154-159):
`variables.into_iter().chain(package_variables).collect()`. -/
def merge_variables (vars package_variables : List (String × String)) :
    List (String × String) :=
  hashMapOfList (vars ++ package_variables)

/-- Embeds `FileTarget` from `src/config.rs`. -/
inductive FileTarget where
  | Simple : FsPath → FileTarget
  | WithSpec : FsPath → Bool → FileTarget
deriving DecidableEq

/-- Embeds `Package` from `src/config.rs` (files as an association list). -/
structure Package where
  depends : List String
  files : List (FsPath × FileTarget)
  vars : List (String × String)
deriving DecidableEq

/-- Embeds `Configuration` from `src/config.rs` (packages as an association list). -/
structure Configuration where
  packages : List (String × Package)
  vars : List (String × String)
deriving DecidableEq

/-- The variable merge performed by `load_config` (src/config.rs lines 90-99):
all package variable maps are folded together with `HashMap::extend`, then
merged after the global variables via `merge_variables`. -/
def load_config_variables (globalVariables : List (String × String))
    (packages : List Package) : List (String × String) :=
  merge_variables globalVariables
    (packages.foldl (fun acc p => p.vars.foldl hashMapInsert acc) [])

/-- The ready test of `ordered_by_dependencies`: every declared dependency
already occurs among the names of `ordered`. -/
def depsSatisfied (ordered : List (String × Package)) (p : Package) : Bool :=
  p.depends.all (fun dep => ordered.any (fun np => np.1 = dep))

/-- The inner scan of `ordered_by_dependencies`: the first remaining package
whose dependencies are all already ordered. -/
def findReady (ordered packages : List (String × Package)) :
    Option (String × Package) :=
  packages.find? (fun np => depsSatisfied ordered np.2)

/-- Embeds `packages.remove(&name)`: drop the (unique) entry with the given key. -/
def removeByName (packages : List (String × Package)) (name : String) :
    List (String × Package) :=
  packages.eraseP (fun np => np.1 = name)

/-- Embeds the `while` loop of `ordered_by_dependencies` (src/config.rs lines 55-70),
with fuel equal to the number of remaining packages (each iteration removes
exactly one).  `none` models the `expect("circular dependency")` panic. -/
def orderLoop : Nat → List (String × Package) → List (String × Package) →
    Option (List (String × Package))
  | _, [], ordered => some ordered
  | 0, _ :: _, _ => none
  | fuel + 1, p :: ps, ordered =>
    match findReady ordered (p :: ps) with
    | none => none
    | some (name, pkg) =>
      orderLoop fuel (removeByName (p :: ps) name) (ordered ++ [(name, pkg)])

/-- Embeds `Configuration::ordered_by_dependencies` (src/config.rs lines 51-74). -/
def Configuration.ordered_by_dependencies (c : Configuration) :
    Option (List (String × Package)) :=
  orderLoop c.packages.length c.packages []

/-- The characters after the last `.` of a character list, `none` when there
is no `.`. -/
def afterLastDot : List Char → Option (List Char)
  | [] => none
  | c :: rest =>
    match afterLastDot rest with
    | some s => some s
    | none => if c = '.' then some rest else none

/-- Embeds `Path::extension` on a file name: the part after the last `.`, where the
leading character is never counted as that dot (so a hidden file like
`.templated` has no extension), and `".."` has none. -/
def extension (name : String) : Option String :=
  if name = ".." then none
  else
    match name.data with
    | [] => none
    | _ :: rest => (afterLastDot rest).map (fun s => String.mk s)

/-- Embeds `Path::with_extension`: replace an existing extension, else append one. -/
def withExtension (p ext : String) : String :=
  match extension p with
  | none => p ++ "." ++ ext
  | some e => p.dropRight (e.length + 1) ++ "." ++ ext

/-- Side effects of a hook run. -/
inductive HookEffect where
  | writeFile : FsPath → String → HookEffect
  | runScript : FsPath → HookEffect
deriving DecidableEq

/-- Embeds `Hook::run` (src/hook.rs lines 19-37).  `locationExists` is
`location.exists()`; `scriptLocation` is `cwd.join(location)`; `readScript`
is the `read_to_string` of the script source inside `render_template`;
`renderCap` the handlebars capability; `spawnExit` is `some code` when the
script process was spawned and waited for successfully (`run_script_file`
plus `child.wait()` abstracted to the resulting exit status, `none` being a
spawn or wait failure).  Second component `true` is `Ok(())`. -/
def Hook.run (locationExists : Bool) (scriptLocation : FsPath)
    (readScript : Option String)
    (renderCap : String → List (String × String) → Option String)
    (vars : List (String × String)) (spawnExit : Option Nat) :
    List HookEffect × Bool :=
  if !locationExists then ([], true)
  else
    match readScript with
    | none => ([], false)
    | some contents =>
      match renderCap contents vars with
      | none => ([], false)
      | some rendered =>
        let templated := withExtension scriptLocation "templated"
        match spawnExit with
        | none => ([HookEffect.writeFile templated rendered], false)
        | some code =>
          ([HookEffect.writeFile templated rendered, HookEffect.runScript templated],
            code == 0)

/-- The removal pass of `remove_templated_scripts`: remove each entry in
order, propagating the first failing removal (`removeOk e = false`) as an
early error return. -/
def removeLoop (removeOk : String → Bool) : List String → List String × Bool
  | [] => ([], true)
  | e :: rest =>
    if removeOk e then
      let r := removeLoop removeOk rest
      (e :: r.1, r.2)
    else ([], false)

/-- Embeds `path.extension().map_or(false, |ext| ext == "templated")`. -/
def isTemplated (e : String) : Bool :=
  ((extension e).map (fun ext => ext == "templated")).getD false

/-- Embeds `remove_templated_scripts` (src/hook.rs lines 74-87): filter the entries
of the current working directory by extension `"templated"` and remove each.
`cwdEntries` are the (successfully read) entries of `read_dir(cwd)`;
`removeOk` tells whether `fs::remove_file` succeeds on an entry.  Returns the
entries removed, in order, and whether the function returned `Ok`. -/
def remove_templated_scripts (cwdEntries : List String)
    (removeOk : String → Bool) : List String × Bool :=
  removeLoop removeOk (cwdEntries.filter isTemplated)




/-- Unfolding lemma for `lookupVar` on the empty list. -/
lemma lookupVar_nil (key : String) : lookupVar [] key = none := rfl

/-- Unfolding lemma for `lookupVar` on a cons cell. -/
lemma lookupVar_cons (x : String × String) (rest : List (String × String))
    (key : String) :
    lookupVar (x :: rest) key = if x.1 = key then some x.2 else lookupVar rest key := by
  obtain ⟨k, v⟩ := x
  rfl

/-- If no entry of the association list carries the key, lookup misses. -/
lemma lookupVar_eq_none (m : List (String × String)) (key : String)
    (h : ∀ e ∈ m, e.1 ≠ key) : lookupVar m key = none := by
  induction m with
  | nil => rfl
  | cons x t ih =>
    rw [lookupVar_cons, if_neg (h x (List.mem_cons_self x t))]
    exact ih fun e he => h e (List.mem_cons_of_mem x he)

/-- If some entry carries the key, lookup hits. -/
lemma lookupVar_isSome (m : List (String × String)) (key : String)
    (h : ∃ e ∈ m, e.1 = key) : (lookupVar m key).isSome = true := by
  induction m with
  | nil => simp at h
  | cons x t ih =>
    rw [lookupVar_cons]
    by_cases hx : x.1 = key
    · simp [hx]
    · rw [if_neg hx]
      apply ih
      obtain ⟨e, he, hek⟩ := h
      rcases List.mem_cons.mp he with rfl | h1
      · exact absurd hek hx
      · exact ⟨e, h1, hek⟩

/-- Lookup distributes over append: the left list is consulted first. -/
lemma lookupVar_append (a b : List (String × String)) (key : String) :
    lookupVar (a ++ b) key
    = match lookupVar a key with
      | some v => some v
      | none => lookupVar b key := by
  induction a with
  | nil => rfl
  | cons x t ih =>
    rw [List.cons_append, lookupVar_cons, lookupVar_cons]
    by_cases hx : x.1 = key
    · simp [hx]
    · rw [if_neg hx, if_neg hx, ih]

/-- Lookup after replacing every binding of `kv.1` by `kv`. -/
lemma lookupVar_map_replace (m : List (String × String)) (kv : String × String)
    (key : String) :
    lookupVar (m.map (fun e => if e.1 = kv.1 then kv else e)) key
    = if key = kv.1 then (lookupVar m kv.1).map (fun _ => kv.2)
      else lookupVar m key := by
  induction m with
  | nil => by_cases h : key = kv.1 <;> simp [lookupVar, h]
  | cons x t ih =>
    rw [List.map_cons]
    by_cases hx : x.1 = kv.1
    · rw [if_pos hx]
      by_cases hkey : key = kv.1
      · subst hkey
        simp [lookupVar_cons, hx]
      · have h1 : ¬(kv.1 = key) := fun h => hkey h.symm
        have h2 : ¬(x.1 = key) := by rw [hx]; exact h1
        simp [lookupVar_cons, hx, hkey, h1, h2, ih]
    · rw [if_neg hx]
      by_cases hkey : key = kv.1
      · subst hkey
        simp [lookupVar_cons, hx, ih]
      · simp [lookupVar_cons, hx, hkey, ih]

/-- The `HashMap` insertion semantics seen through lookup: the inserted
binding wins on its own key and nothing else changes. -/
lemma lookupVar_hashMapInsert (m : List (String × String)) (kv : String × String)
    (key : String) :
    lookupVar (hashMapInsert m kv) key
    = if key = kv.1 then some kv.2 else lookupVar m key := by
  unfold hashMapInsert
  by_cases hany : m.any (fun e => e.1 = kv.1)
  · rw [if_pos hany, lookupVar_map_replace]
    by_cases hkey : key = kv.1
    · rw [if_pos hkey, if_pos hkey]
      have hsome : (lookupVar m kv.1).isSome = true := by
        apply lookupVar_isSome
        simpa using hany
      obtain ⟨w, hw⟩ := Option.isSome_iff_exists.mp hsome
      simp [hw]
    · rw [if_neg hkey, if_neg hkey]
  · rw [if_neg hany, lookupVar_append]
    have hnone : lookupVar m kv.1 = none := by
      apply lookupVar_eq_none
      intro e he hk
      apply hany
      simp only [List.any_eq_true, decide_eq_true_eq]
      exact ⟨e, he, hk⟩
    by_cases hkey : key = kv.1
    · subst hkey
      simp [hnone, lookupVar_cons]
    · have h2 : ¬(kv.1 = key) := fun hh => hkey hh.symm
      cases h : lookupVar m key with
      | some v => simp [h, hkey]
      | none => simp [h, hkey, lookupVar_cons, h2, lookupVar_nil]

/-- Folding `hashMapInsert` over a list: the last binding of a key wins,
falling back to the accumulator. -/
lemma lookupVar_foldl_hashMapInsert (l m : List (String × String)) (key : String) :
    lookupVar (l.foldl hashMapInsert m) key
    = match lookupVar l.reverse key with
      | some v => some v
      | none => lookupVar m key := by
  induction l generalizing m with
  | nil => rfl
  | cons x t ih =>
    rw [List.foldl_cons, ih, List.reverse_cons, lookupVar_append]
    cases htail : lookupVar t.reverse key with
    | some v => rfl
    | none =>
      rw [lookupVar_hashMapInsert]
      by_cases hk : key = x.1
      · simp [hk, lookupVar_cons]
      · have h2 : ¬(x.1 = key) := fun hh => hk hh.symm
        simp [hk, lookupVar_cons, h2, lookupVar_nil]

/-- C1: `SymlinkState::from` returns exactly the outcome of the link
reconciliation table: `OnlyTargetExists` when the source is missing and the
target a symbolic link; for an existing source and a symbolic-link target,
`Identical` when the link destination equals the canonicalised source and
`Changed` when it does not; `BothMissing` when both are missing;
`OnlySourceExists` when the source exists and the target is missing; and
`TargetNotSymlink` when the target is a regular file or a directory. -/
theorem symlink_state_matches_table (sp : FsPath) (st tt : FileType)
    (rp : FsPath → Option FsPath) :
    (∀ t, st = .Missing → tt = .SymbolicLink t →
      SymlinkState.ofTypes sp st tt rp = some .OnlyTargetExists)
    ∧ (∀ t c, st ≠ .Missing → tt = .SymbolicLink t → rp sp = some c → t = c →
      SymlinkState.ofTypes sp st tt rp = some .Identical)
    ∧ (∀ t c, st ≠ .Missing → tt = .SymbolicLink t → rp sp = some c → t ≠ c →
      SymlinkState.ofTypes sp st tt rp = some .Changed)
    ∧ (st = .Missing → tt = .Missing →
      SymlinkState.ofTypes sp st tt rp = some .BothMissing)
    ∧ (st ≠ .Missing → tt = .Missing →
      SymlinkState.ofTypes sp st tt rp = some .OnlySourceExists)
    ∧ (∀ c, tt = .File c → SymlinkState.ofTypes sp st tt rp = some .TargetNotSymlink)
    ∧ (tt = .Directory → SymlinkState.ofTypes sp st tt rp = some .TargetNotSymlink) := by
  refine ⟨?_, ?_, ?_, ?_, ?_, ?_, ?_⟩
  · rintro t rfl rfl
    rfl
  · rintro t c hst rfl hrp rfl
    cases st with
    | Missing => exact absurd rfl hst
    | File a => simp [SymlinkState.ofTypes, hrp]
    | SymbolicLink a => simp [SymlinkState.ofTypes, hrp]
    | Directory => simp [SymlinkState.ofTypes, hrp]
  · rintro t c hst rfl hrp hne
    cases st with
    | Missing => exact absurd rfl hst
    | File a => simp [SymlinkState.ofTypes, hrp, hne]
    | SymbolicLink a => simp [SymlinkState.ofTypes, hrp, hne]
    | Directory => simp [SymlinkState.ofTypes, hrp, hne]
  · rintro rfl rfl
    rfl
  · rintro hst rfl
    cases st with
    | Missing => exact absurd rfl hst
    | File a => rfl
    | SymbolicLink a => rfl
    | Directory => rfl
  · rintro c rfl
    cases st <;> rfl
  · rintro rfl
    cases st <;> rfl

/-- C1 witness: the table at concrete classifications. -/
theorem symlink_state_matches_table_witness :
    SymlinkState.ofTypes "s" .Missing (.SymbolicLink "x") (fun _ => some "c")
      = some .OnlyTargetExists
    ∧ SymlinkState.ofTypes "s" .Directory (.SymbolicLink "c") (fun _ => some "c")
      = some .Identical
    ∧ SymlinkState.ofTypes "s" .Directory (.SymbolicLink "x") (fun _ => some "c")
      = some .Changed
    ∧ SymlinkState.ofTypes "s" .Missing .Missing (fun _ => some "c")
      = some .BothMissing
    ∧ SymlinkState.ofTypes "s" (.File (some "h")) .Missing (fun _ => some "c")
      = some .OnlySourceExists
    ∧ SymlinkState.ofTypes "s" (.File (some "h")) (.File (some "z")) (fun _ => some "c")
      = some .TargetNotSymlink
    ∧ SymlinkState.ofTypes "s" (.File (some "h")) .Directory (fun _ => some "c")
      = some .TargetNotSymlink := by
  have h1 := symlink_state_matches_table "s" .Missing (.SymbolicLink "x") (fun _ => some "c")
  have h2 := symlink_state_matches_table "s" .Directory (.SymbolicLink "c") (fun _ => some "c")
  have h3 := symlink_state_matches_table "s" .Directory (.SymbolicLink "x") (fun _ => some "c")
  have h4 := symlink_state_matches_table "s" .Missing .Missing (fun _ => some "c")
  have h5 := symlink_state_matches_table "s" (.File (some "h")) .Missing (fun _ => some "c")
  have h6 := symlink_state_matches_table "s" (.File (some "h")) (.File (some "z"))
    (fun _ => some "c")
  have h7 := symlink_state_matches_table "s" (.File (some "h")) .Directory (fun _ => some "c")
  exact ⟨h1.1 "x" rfl rfl,
    h2.2.1 "c" "c" (by decide) rfl rfl rfl,
    h3.2.2.1 "x" "c" (by decide) rfl rfl (by decide),
    h4.2.2.2.1 rfl rfl,
    h5.2.2.2.2.1 (by decide) rfl,
    h6.2.2.2.2.2.1 (some "z") rfl,
    h7.2.2.2.2.2.2 rfl⟩

/-- C2 counterexample: two binary files (`File none` on both sides) are
classified `Identical`, not `TargetNotRegularFile`, contradicting the claim
that `Identical` needs both sides to be text and that a binary target is
`TargetOccupiedByOther`; and a directory source with a missing target is
classified `TargetNotRegularFile`, not `OnlySourceExists`. -/
theorem template_state_table_counterexample :
    TemplateState.ofTypes (.File none) (.File none) = .Identical
    ∧ TemplateState.ofTypes (.File none) (.File none) ≠ .TargetNotRegularFile
    ∧ TemplateState.ofTypes .Directory .Missing = .TargetNotRegularFile
    ∧ TemplateState.ofTypes .Directory .Missing ≠ .OnlySourceExists := by decide

/-- C2 (amended): `TemplateState::from` compares the two `File` content
options directly: `Identical` when both sides are regular files with equal
content options (including two binary files), `Changed` when both are regular
files with different content options, `OnlySourceExists` when the source is a
regular file (text or binary) and the target missing, `BothMissing` only when
both are missing, and `TargetNotRegularFile` in every other case. -/
theorem template_state_matches_code_table (st tt : FileType) :
    (∀ s t, st = .File s → tt = .File t → s = t →
      TemplateState.ofTypes st tt = .Identical)
    ∧ (∀ s t, st = .File s → tt = .File t → s ≠ t →
      TemplateState.ofTypes st tt = .Changed)
    ∧ (∀ s, st = .File s → tt = .Missing →
      TemplateState.ofTypes st tt = .OnlySourceExists)
    ∧ (st = .Missing → tt = .Missing → TemplateState.ofTypes st tt = .BothMissing)
    ∧ (st ≠ .Missing → (∀ s, st ≠ .File s) →
      TemplateState.ofTypes st tt = .TargetNotRegularFile)
    ∧ (tt ≠ .Missing → (∀ t, tt ≠ .File t) →
      TemplateState.ofTypes st tt = .TargetNotRegularFile)
    ∧ (∀ t, st = .Missing → tt = .File t →
      TemplateState.ofTypes st tt = .TargetNotRegularFile) := by
  refine ⟨?_, ?_, ?_, ?_, ?_, ?_, ?_⟩
  · rintro s t rfl rfl rfl
    simp [TemplateState.ofTypes]
  · rintro s t rfl rfl hne
    simp [TemplateState.ofTypes, hne]
  · rintro s rfl rfl
    rfl
  · rintro rfl rfl
    rfl
  · intro hmiss hfile
    cases st with
    | Missing => exact absurd rfl hmiss
    | File a => exact absurd rfl (hfile a)
    | Directory => cases tt <;> rfl
    | SymbolicLink a => cases tt <;> rfl
  · intro hmiss hfile
    cases tt with
    | Missing => exact absurd rfl hmiss
    | File a => exact absurd rfl (hfile a)
    | Directory => cases st <;> rfl
    | SymbolicLink a => cases st <;> rfl
  · rintro t rfl rfl
    rfl

/-- C2 witness: the code's table at concrete classifications. -/
theorem template_state_matches_code_table_witness :
    TemplateState.ofTypes (.File (some "a")) (.File (some "a")) = .Identical
    ∧ TemplateState.ofTypes (.File (some "a")) (.File none) = .Changed
    ∧ TemplateState.ofTypes (.File none) .Missing = .OnlySourceExists
    ∧ TemplateState.ofTypes .Missing .Missing = .BothMissing
    ∧ TemplateState.ofTypes .Directory .Missing = .TargetNotRegularFile
    ∧ TemplateState.ofTypes (.File (some "a")) .Directory = .TargetNotRegularFile
    ∧ TemplateState.ofTypes .Missing (.File (some "a")) = .TargetNotRegularFile := by
  have h1 := template_state_matches_code_table (.File (some "a")) (.File (some "a"))
  have h2 := template_state_matches_code_table (.File (some "a")) (.File none)
  have h3 := template_state_matches_code_table (.File none) .Missing
  have h4 := template_state_matches_code_table .Missing .Missing
  have h5 := template_state_matches_code_table .Directory .Missing
  have h6 := template_state_matches_code_table (.File (some "a")) .Directory
  have h7 := template_state_matches_code_table .Missing (.File (some "a"))
  exact ⟨h1.1 (some "a") (some "a") rfl rfl rfl,
    h2.2.1 (some "a") none rfl rfl (by decide),
    h3.2.2.1 none rfl rfl,
    h4.2.2.2.1 rfl rfl,
    h5.2.2.2.2.1 (by decide) (fun s h => by cases h),
    h6.2.2.2.2.2.1 (by decide) (fun t h => by cases h),
    h7.2.2.2.2.2.2 (some "a") rfl rfl⟩

/-- C3 counterexample: a target occupied by a binary regular file
(`File none`) is not the expected kind for template delivery, yet
`Template::render` mutates it: the pair classifies as `Changed`, so the
render proceeds and writes the target even with `force = false`. -/
theorem render_mutates_binary_target_counterexample :
    Template.render (.File (some "x")) (.File none) (fun s _ => some s) []
      (some "x") "p" "t" true false
    = ([FsOp.createDirAll "p", FsOp.writeFile "t" "x"], true)
    ∧ ([FsOp.createDirAll "p", FsOp.writeFile "t" "x"] : List FsOp) ≠ [] := by decide

/-- C3 (amended): for every `force`, `Symlink::create` performs no mutation
when the target is a regular file or directory (`TargetNotSymlink`) or a
symlink resolving elsewhere (`Changed`), and `Template::render` performs no
mutation when the target is a directory or a symbolic link; a binary regular
file target is instead treated as `Changed`/`Identical` by the template path
and may be overwritten. -/
theorem reconcile_no_mutation_on_foreign_target
    (sp tp : FsPath) (st tt : FileType) (rp : FsPath → Option FsPath)
    (parentOfTarget : FsPath) (tex force : Bool)
    (renderCap : String → List (String × String) → Option String)
    (vars : List (String × String)) (readSource : Option String) :
    ((∃ c, tt = .File c) ∨ tt = .Directory →
      Symlink.create sp tp st tt rp parentOfTarget tex force = ([], true))
    ∧ (SymlinkState.ofTypes sp st tt rp = some .Changed →
      Symlink.create sp tp st tt rp parentOfTarget tex force = ([], true))
    ∧ (tt = .Directory ∨ (∃ q, tt = .SymbolicLink q) →
      Template.render st tt renderCap vars readSource parentOfTarget tp tex force
        = ([], true)) := by
  refine ⟨?_, ?_, ?_⟩
  · rintro (⟨c, rfl⟩ | rfl) <;> cases st <;> rfl
  · intro hstate
    simp [Symlink.create, hstate]
  · rintro (rfl | ⟨q, rfl⟩) <;> cases st <;> rfl

/-- C3 witness: concrete foreign targets under `force = true`. -/
theorem reconcile_no_mutation_on_foreign_target_witness :
    Symlink.create "s" "t" (.File (some "h")) .Directory (fun _ => some "c") "p" true true
      = ([], true)
    ∧ Symlink.create "s" "t" (.File (some "h")) (.SymbolicLink "x") (fun _ => some "c")
        "p" true true = ([], true)
    ∧ Template.render (.File (some "h")) (.SymbolicLink "x") (fun s _ => some s) []
        (some "h") "p" "t" true true = ([], true) := by
  have h1 := reconcile_no_mutation_on_foreign_target "s" "t" (.File (some "h")) .Directory
    (fun _ => some "c") "p" true true (fun s _ => some s) [] (some "h")
  have h2 := reconcile_no_mutation_on_foreign_target "s" "t" (.File (some "h"))
    (.SymbolicLink "x") (fun _ => some "c") "p" true true (fun s _ => some s) [] (some "h")
  exact ⟨h1.1 (Or.inr rfl), h2.2.1 (by decide), h2.2.2 (Or.inr ⟨"x", rfl⟩)⟩

/-- C4 counterexample: the target already holds exactly the text the render
capability produces from the source (`"Hi!"` from `"Hi"`), `force` is false,
and yet `Template::render` writes: the code compares the raw source text with
the target text, so the pair classifies as `Changed`, not `Identical`. -/
theorem render_not_idempotent_counterexample :
    (fun s (_ : List (String × String)) => some (s ++ "!")) "Hi" [] = some "Hi!"
    ∧ Template.render (.File (some "Hi")) (.File (some "Hi!"))
        (fun s _ => some (s ++ "!")) [] (some "Hi") "p" "t" true false
      = ([FsOp.createDirAll "p", FsOp.writeFile "t" "Hi!"], true)
    ∧ ([FsOp.createDirAll "p", FsOp.writeFile "t" "Hi!"] : List FsOp) ≠ [] := by decide

/-- C4 (amended): `Template::render` performs no write without `force`
exactly when the target's text equals the source template's raw text (not
its rendered output): with equal raw texts the pair is `Identical` and
nothing is mutated. -/
theorem render_no_write_on_equal_raw_text (txt : String)
    (renderCap : String → List (String × String) → Option String)
    (vars : List (String × String)) (readSource : Option String)
    (parentOfTarget tp : FsPath) (tex : Bool) :
    Template.render (.File (some txt)) (.File (some txt)) renderCap vars readSource
      parentOfTarget tp tex false = ([], true) := by
  simp [Template.render, TemplateState.ofTypes]

/-- C5: whenever `Symlink::create` reaches the create action (state
`OnlySourceExists`, or `Identical` with `force`), it issues exactly: the
recursive creation of the target's parent directory, then — only when
`force` is set and the target exists — the removal of the existing target,
then the creation of a symbolic link pointing at the canonicalised source
path (never the original one). -/
theorem symlink_create_action_ops (sp tp : FsPath) (st tt : FileType)
    (rp : FsPath → Option FsPath) (parentOfTarget : FsPath) (tex force : Bool)
    (c : FsPath)
    (hstate : SymlinkState.ofTypes sp st tt rp = some .OnlySourceExists
      ∨ (SymlinkState.ofTypes sp st tt rp = some .Identical ∧ force = true))
    (hreal : rp sp = some c) :
    Symlink.create sp tp st tt rp parentOfTarget tex force
    = ([FsOp.createDirAll parentOfTarget]
        ++ (if force && tex then [FsOp.removeFile tp] else [])
        ++ [FsOp.symlink c tp], true) := by
  rcases hstate with hstate | ⟨hstate, rfl⟩ <;> simp [Symlink.create, hstate, hreal]

/-- C5 witness: a plain create and a forced re-create of an identical link. -/
theorem symlink_create_action_ops_witness :
    Symlink.create "s" "t" (.File (some "h")) .Missing (fun _ => some "c") "p" false false
      = ([FsOp.createDirAll "p", FsOp.symlink "c" "t"], true)
    ∧ Symlink.create "s" "t" (.File (some "h")) (.SymbolicLink "c") (fun _ => some "c")
        "p" true true
      = ([FsOp.createDirAll "p", FsOp.removeFile "t", FsOp.symlink "c" "t"], true) := by
  have h1 := symlink_create_action_ops "s" "t" (.File (some "h")) .Missing
    (fun _ => some "c") "p" false false "c" (Or.inl (by decide)) rfl
  have h2 := symlink_create_action_ops "s" "t" (.File (some "h")) (.SymbolicLink "c")
    (fun _ => some "c") "p" true true "c" (Or.inr ⟨by decide, rfl⟩) rfl
  exact ⟨by simpa using h1, by simpa using h2⟩

/-- C7: `FileType::try_from` reports a symbolic link first (even over a
directory or readable file), then a directory, then classifies by the text
read: success is `File (some text)`, a decoding failure is the valid
classification `File none` (and is the only way to obtain it), a missing
path is `Missing` rather than an error, and any other I/O failure is an
error. -/
theorem file_type_tryFrom_classification (o : RawObservation) :
    (∀ t, o.readLink = some t → FileType.tryFrom o = some (.SymbolicLink t))
    ∧ (o.readLink = none → o.isDir = true → FileType.tryFrom o = some .Directory)
    ∧ (∀ s, o.readLink = none → o.isDir = false → o.readToString = .ok s →
      FileType.tryFrom o = some (.File (some s)))
    ∧ (o.readLink = none → o.isDir = false → o.readToString = .notFound →
      FileType.tryFrom o = some .Missing)
    ∧ (o.readLink = none → o.isDir = false → o.readToString = .otherError →
      FileType.tryFrom o = none)
    ∧ (FileType.tryFrom o = some (.File none) ↔
      o.readLink = none ∧ o.isDir = false ∧ o.readToString = .invalidData) := by
  obtain ⟨rl, d, rr⟩ := o
  cases rl <;> cases d <;> cases rr <;> simp [FileType.tryFrom]

/-- C7 witness: concrete observations for each classification. -/
theorem file_type_tryFrom_classification_witness :
    FileType.tryFrom ⟨some "x", true, .notFound⟩ = some (.SymbolicLink "x")
    ∧ FileType.tryFrom ⟨none, true, .ok "s"⟩ = some .Directory
    ∧ FileType.tryFrom ⟨none, false, .ok "s"⟩ = some (.File (some "s"))
    ∧ FileType.tryFrom ⟨none, false, .notFound⟩ = some .Missing
    ∧ FileType.tryFrom ⟨none, false, .otherError⟩ = none
    ∧ FileType.tryFrom ⟨none, false, .invalidData⟩ = some (.File none) := by
  have h1 := file_type_tryFrom_classification ⟨some "x", true, .notFound⟩
  have h2 := file_type_tryFrom_classification ⟨none, true, .ok "s"⟩
  have h3 := file_type_tryFrom_classification ⟨none, false, .ok "s"⟩
  have h4 := file_type_tryFrom_classification ⟨none, false, .notFound⟩
  have h5 := file_type_tryFrom_classification ⟨none, false, .otherError⟩
  have h6 := file_type_tryFrom_classification ⟨none, false, .invalidData⟩
  exact ⟨h1.1 "x" rfl, h2.2.1 rfl rfl, h3.2.2.1 "s" rfl rfl rfl,
    h4.2.2.2.1 rfl rfl rfl, h5.2.2.2.2.1 rfl rfl rfl,
    (h6.2.2.2.2.2).mpr ⟨rfl, rfl, rfl⟩⟩

/-- C6 counterexample: with a global variable and a package-local variable of
the same name, the merged mapping produced by `load_config` holds the
package-local value, not the global one — `merge_variables` chains the global
variables first and the `HashMap` collect lets later (package) bindings win. -/
theorem merge_variables_global_wins_counterexample :
    lookupVar (load_config_variables [("name", "global")]
      [{ depends := [], files := [], vars := [("name", "local")] }]) "name"
      = some "local"
    ∧ lookupVar (merge_variables [("name", "global")] [("name", "local")]) "name"
      = some "local"
    ∧ (some "local" : Option String) ≠ some "global" := by decide

/-- C6 (amended): in the merged mapping, a package-local binding overrides a
global binding of the same name: whatever the last package binding of a key
is, that value is the one `merge_variables` exposes, regardless of the
global variables. -/
theorem merge_variables_package_overrides_global
    (globals pkgVars : List (String × String)) (k v : String)
    (hpkg : lookupVar pkgVars.reverse k = some v) :
    lookupVar (merge_variables globals pkgVars) k = some v := by
  unfold merge_variables hashMapOfList
  rw [lookupVar_foldl_hashMapInsert, List.reverse_append, lookupVar_append, hpkg]

/-- C6 witness: a concrete package binding overriding a global one. -/
theorem merge_variables_package_overrides_global_witness :
    lookupVar (merge_variables [("a", "1"), ("b", "9")] [("b", "2"), ("b", "3")]) "b"
      = some "3" := by
  exact merge_variables_package_overrides_global [("a", "1"), ("b", "9")]
    [("b", "2"), ("b", "3")] "b" "3" (by decide)

/-- C9: `Hook::run` succeeds without any side effect when the configured
script path does not exist; when the path exists and the rendering and
spawning of the script succeed, the call errors exactly when the script's
exit status is non-zero. -/
theorem hook_run_missing_ok_and_exit_status (scriptLocation : FsPath)
    (readScript : Option String)
    (renderCap : String → List (String × String) → Option String)
    (vars : List (String × String)) (spawnExit : Option Nat) :
    (Hook.run false scriptLocation readScript renderCap vars spawnExit = ([], true))
    ∧ (∀ contents rendered code, readScript = some contents →
      renderCap contents vars = some rendered → spawnExit = some code →
      ((Hook.run true scriptLocation readScript renderCap vars spawnExit).2 = true
        ↔ code = 0)) := by
  constructor
  · rfl
  · rintro contents rendered code rfl hrender rfl
    simp [Hook.run, hrender]

/-- C9 witness: a missing hook succeeds; an existing hook whose script exits
with status 1 fails. -/
theorem hook_run_missing_ok_and_exit_status_witness :
    Hook.run false "h.sh" (some "echo hi") (fun s _ => some s) [] (some 1) = ([], true)
    ∧ ((Hook.run true "h.sh" (some "echo hi") (fun s _ => some s) [] (some 1)).2 = true
      ↔ (1 : Nat) = 0) := by
  have h := hook_run_missing_ok_and_exit_status "h.sh" (some "echo hi")
    (fun s _ => some s) [] (some 1)
  exact ⟨h.1, h.2 "echo hi" "echo hi" 1 rfl rfl rfl⟩

/-- Lemma: `isTemplated` is exactly the extension test of the claim. -/
lemma isTemplated_iff (e : String) :
    isTemplated e = true ↔ extension e = some "templated" := by
  unfold isTemplated
  cases h : extension e with
  | none => simp [h]
  | some ext => simp [h, beq_iff_eq]

/-- When every targeted removal succeeds, the removal loop removes the whole
list in order. -/
lemma removeLoop_all_ok (removeOk : String → Bool) (l : List String)
    (h : ∀ e ∈ l, removeOk e = true) : removeLoop removeOk l = (l, true) := by
  induction l with
  | nil => rfl
  | cons e rest ih =>
    simp only [removeLoop, h e (List.mem_cons_self e rest), if_pos,
      ih fun x hx => h x (List.mem_cons_of_mem e hx)]

/-- C10: when removals succeed, `remove_templated_scripts` removes exactly
the entries of the current working directory whose extension is
`"templated"`: every removed path is such an entry of the directory itself
(so no file of a subdirectory or with another extension is touched), and
every such entry is removed, whatever created it. -/
theorem remove_templated_scripts_exact (cwdEntries : List String)
    (removeOk : String → Bool)
    (hok : ∀ e ∈ cwdEntries, isTemplated e = true → removeOk e = true) :
    remove_templated_scripts cwdEntries removeOk
      = (cwdEntries.filter isTemplated, true)
    ∧ ∀ p, (p ∈ (remove_templated_scripts cwdEntries removeOk).1
      ↔ p ∈ cwdEntries ∧ extension p = some "templated") := by
  have hfilter : remove_templated_scripts cwdEntries removeOk
      = (cwdEntries.filter isTemplated, true) := by
    unfold remove_templated_scripts
    apply removeLoop_all_ok
    intro e he
    exact hok e (List.mem_of_mem_filter he) (List.of_mem_filter he)
  refine ⟨hfilter, fun p => ?_⟩
  rw [hfilter]
  simp only [List.mem_filter, isTemplated_iff]

/-- C10 witness: concrete directory entries; note the hidden file
`.templated` has no extension and is kept. -/
theorem remove_templated_scripts_exact_witness :
    remove_templated_scripts ["a.templated", "b.txt", ".templated", "sub"]
      (fun _ => true) = (["a.templated"], true)
    ∧ ("a.templated" ∈ (remove_templated_scripts
        ["a.templated", "b.txt", ".templated", "sub"] (fun _ => true)).1
      ↔ "a.templated" ∈ ["a.templated", "b.txt", ".templated", "sub"]
        ∧ extension "a.templated" = some "templated") := by
  have h := remove_templated_scripts_exact ["a.templated", "b.txt", ".templated", "sub"]
    (fun _ => true) (fun e _ _ => rfl)
  exact ⟨by simpa using h.1, h.2 "a.templated"⟩

/-- Lemma: `depsSatisfied` holds exactly when every dependency name occurs among the
ordered names. -/
lemma depsSatisfied_iff (ordered : List (String × Package)) (p : Package) :
    depsSatisfied ordered p = true ↔
      ∀ dep ∈ p.depends, dep ∈ ordered.map Prod.fst := by
  unfold depsSatisfied
  simp [List.all_eq_true, List.any_eq_true, List.mem_map]

/-- An element of a list survives `eraseP` or satisfies the predicate. -/
lemma mem_eraseP_or {α : Type} (p : α → Bool) (l : List α) (x : α) (hx : x ∈ l) :
    x ∈ l.eraseP p ∨ p x = true := by
  induction l with
  | nil => simp at hx
  | cons a t ih =>
    by_cases hp : p a
    · rw [List.eraseP_cons_of_pos hp]
      rcases List.mem_cons.mp hx with rfl | h
      · exact Or.inr hp
      · exact Or.inl h
    · rw [List.eraseP_cons_of_neg (by simpa using hp)]
      rcases List.mem_cons.mp hx with rfl | h
      · exact Or.inl (List.mem_cons_self x _)
      · rcases ih h with h1 | h1
        · exact Or.inl (List.mem_cons_of_mem a h1)
        · exact Or.inr h1

/-- Computation of `removeByName` on a head that carries the key. -/
lemma removeByName_cons_of_key (t : List (String × Package)) (x : String × Package)
    (name : String) (hx : x.1 = name) : removeByName (x :: t) name = t := by
  unfold removeByName
  exact List.eraseP_cons_of_pos (decide_eq_true hx)

/-- Computation of `removeByName` on a head that does not carry the key. -/
lemma removeByName_cons_of_ne (t : List (String × Package)) (x : String × Package)
    (name : String) (hx : ¬(x.1 = name)) :
    removeByName (x :: t) name = x :: removeByName t name := by
  unfold removeByName
  exact List.eraseP_cons_of_neg (by simpa using hx)

/-- With unique keys, the list is a permutation of the removed entry put
back in front of the remainder. -/
lemma removeByName_perm (l : List (String × Package)) (name : String) (pkg : Package)
    (hnodup : (l.map Prod.fst).Nodup) (hmem : (name, pkg) ∈ l) :
    l.Perm ((name, pkg) :: removeByName l name) := by
  induction l with
  | nil => simp at hmem
  | cons x t ih =>
    rw [List.map_cons] at hnodup
    have hnd := List.nodup_cons.mp hnodup
    by_cases hx : x.1 = name
    · have hxeq : x = (name, pkg) := by
        rcases List.mem_cons.mp hmem with h | h
        · exact h.symm
        · exfalso
          have hnamein : name ∈ t.map Prod.fst := List.mem_map.mpr ⟨(name, pkg), h, rfl⟩
          exact hnd.1 (hx ▸ hnamein)
      rw [removeByName_cons_of_key t x name hx, hxeq]
    · have hmem' : (name, pkg) ∈ t := by
        rcases List.mem_cons.mp hmem with h | h
        · exact absurd (congrArg Prod.fst h).symm hx
        · exact h
      rw [removeByName_cons_of_ne t x name hx]
      exact ((ih hnd.2 hmem').cons x).trans (List.Perm.swap (name, pkg) x _)

/-- Removing an existing key shortens the list by exactly one entry. -/
lemma removeByName_length (l : List (String × Package)) (name : String) (pkg : Package)
    (hmem : (name, pkg) ∈ l) : (removeByName l name).length + 1 = l.length := by
  induction l with
  | nil => simp at hmem
  | cons x t ih =>
    by_cases hx : x.1 = name
    · rw [removeByName_cons_of_key t x name hx, List.length_cons]
    · have hmem' : (name, pkg) ∈ t := by
        rcases List.mem_cons.mp hmem with h | h
        · exact absurd (congrArg Prod.fst h).symm hx
        · exact h
      rw [removeByName_cons_of_ne t x name hx]
      simp only [List.length_cons, ih hmem']

/-- The remainder after a removal is a subset of the original list. -/
lemma removeByName_subset (l : List (String × Package)) (name : String)
    (x : String × Package) (hx : x ∈ removeByName l name) : x ∈ l :=
  (List.eraseP_sublist l).mem hx

/-- Removal preserves uniqueness of the keys. -/
lemma removeByName_nodup (l : List (String × Package)) (name : String)
    (h : (l.map Prod.fst).Nodup) : ((removeByName l name).map Prod.fst).Nodup :=
  h.sublist ((List.eraseP_sublist l).map Prod.fst)

/-- A nonempty list has an element minimising a natural measure. -/
lemma exists_min_rank {α : Type} (f : α → Nat) (x : α) (t : List α) :
    ∃ m ∈ x :: t, ∀ a ∈ x :: t, f m ≤ f a := by
  induction t generalizing x with
  | nil =>
    refine ⟨x, List.mem_singleton_self x, fun a ha => ?_⟩
    rw [List.mem_singleton.mp ha]
  | cons y s ih =>
    obtain ⟨m, hm, hmin⟩ := ih y
    by_cases hx : f x ≤ f m
    · refine ⟨x, List.mem_cons_self x (y :: s), fun a ha => ?_⟩
      rcases List.mem_cons.mp ha with rfl | hat
      · exact le_refl (f a)
      · exact le_trans hx (hmin a hat)
    · refine ⟨m, List.mem_cons_of_mem x hm, fun a ha => ?_⟩
      rcases List.mem_cons.mp ha with rfl | hat
      · exact le_of_not_le hx
      · exact hmin a hat

/-- Soundness of the ordering loop: a successful run extends `ordered` by a
permutation of the remaining packages in which every package's dependencies
occur strictly earlier (counting the already-ordered prefix). -/
lemma orderLoop_sound (fuel : Nat) :
    ∀ (packages ordered l : List (String × Package)),
    (packages.map Prod.fst).Nodup →
    orderLoop fuel packages ordered = some l →
    ∃ tail, l = ordered ++ tail ∧ tail.Perm packages ∧
      ∀ pre x post, tail = pre ++ x :: post →
        ∀ dep ∈ x.2.depends, dep ∈ (ordered ++ pre).map Prod.fst := by
  induction fuel with
  | zero =>
    intro packages ordered l _ h
    cases packages with
    | nil =>
      refine ⟨[], by simpa using (Option.some.inj h).symm, List.Perm.refl [], ?_⟩
      intro pre x post hsplit
      exact absurd hsplit (by cases pre <;> simp)
    | cons p ps => exact absurd h (by simp [orderLoop])
  | succ fuel ih =>
    intro packages ordered l hnodup h
    cases packages with
    | nil =>
      refine ⟨[], by simpa using (Option.some.inj h).symm, List.Perm.refl [], ?_⟩
      intro pre x post hsplit
      exact absurd hsplit (by cases pre <;> simp)
    | cons p ps =>
      rw [orderLoop] at h
      cases hfind : findReady ordered (p :: ps) with
      | none => rw [hfind] at h; exact absurd h (by simp)
      | some np =>
        obtain ⟨name, pkg⟩ := np
        rw [hfind] at h
        have hmem : (name, pkg) ∈ p :: ps := List.mem_of_find?_eq_some hfind
        have hsat : depsSatisfied ordered pkg = true := by
          simpa using List.find?_some hfind
        have hnodup' := removeByName_nodup (p :: ps) name hnodup
        obtain ⟨tail', heq, hperm, htopo⟩ := ih _ _ _ hnodup' h
        subst heq
        refine ⟨(name, pkg) :: tail', by simp, ?_, ?_⟩
        · exact (hperm.cons (name, pkg)).trans
            (removeByName_perm (p :: ps) name pkg hnodup hmem).symm
        · intro pre x post hsplit dep hdep
          cases pre with
          | nil =>
            simp only [List.nil_append] at hsplit
            injection hsplit with h1 h2
            subst h1
            have := (depsSatisfied_iff ordered pkg).mp hsat dep hdep
            simpa using this
          | cons q pre' =>
            injection hsplit with h1 h2
            subst h1
            have := htopo pre' x post h2 dep hdep
            simpa [List.append_assoc] using this

/-- Completeness of the ordering loop: with enough fuel, a rank function
witnessing acyclicity, and all dependencies resolvable, the loop succeeds. -/
lemma orderLoop_complete (rank : String → Nat) (fuel : Nat) :
    ∀ (packages ordered : List (String × Package)),
    packages.length ≤ fuel →
    (∀ np ∈ packages, ∀ dep ∈ np.2.depends, rank dep < rank np.1) →
    (∀ np ∈ packages, ∀ dep ∈ np.2.depends,
      dep ∈ ordered.map Prod.fst ∨ dep ∈ packages.map Prod.fst) →
    (orderLoop fuel packages ordered).isSome = true := by
  induction fuel with
  | zero =>
    intro packages ordered hfuel _ _
    have : packages = [] := List.eq_nil_of_length_eq_zero (Nat.le_zero.mp hfuel)
    subst this
    rfl
  | succ fuel ih =>
    intro packages ordered hfuel hacyc hclosed
    cases packages with
    | nil => rfl
    | cons p ps =>
      obtain ⟨m, hm, hmin⟩ := exists_min_rank (fun np => rank np.1) p ps
      have hready : depsSatisfied ordered m.2 = true := by
        rw [depsSatisfied_iff]
        intro dep hdep
        rcases hclosed m hm dep hdep with hl | hr
        · exact hl
        · exfalso
          obtain ⟨q, hq, hq1⟩ := List.mem_map.mp hr
          have h1 : rank dep < rank m.1 := hacyc m hm dep hdep
          have h2 : rank m.1 ≤ rank q.1 := hmin q hq
          rw [hq1] at h2
          omega
      cases hfind : findReady ordered (p :: ps) with
      | none =>
        exfalso
        have := List.find?_eq_none.mp hfind m hm
        simp [hready] at this
      | some np =>
        obtain ⟨name, pkg⟩ := np
        rw [orderLoop, hfind]
        have hmemnp : (name, pkg) ∈ p :: ps := List.mem_of_find?_eq_some hfind
        apply ih
        · have hlen := removeByName_length (p :: ps) name pkg hmemnp
          simp only [List.length_cons] at hlen hfuel
          omega
        · intro np' hnp' dep hdep
          exact hacyc np' (removeByName_subset (p :: ps) name np' hnp') dep hdep
        · intro np' hnp' dep hdep
          rcases hclosed np' (removeByName_subset (p :: ps) name np' hnp') dep hdep
            with hl | hr
          · left
            simp only [List.map_append, List.mem_append]
            exact Or.inl hl
          · obtain ⟨q, hq, hq1⟩ := List.mem_map.mp hr
            rcases mem_eraseP_or _ (p :: ps) q hq with hq2 | hq2
            · right
              exact List.mem_map.mpr ⟨q, hq2, hq1⟩
            · left
              have hqname : q.1 = name := of_decide_eq_true hq2
              simp only [List.map_append, List.mem_append]
              right
              simp [← hq1, hqname]

/-- C8: any successful run of `ordered_by_dependencies` (with the unique
keys a `HashMap` guarantees) returns every package exactly once — a
permutation of the configuration, nothing dropped — with every package
placed after all packages it depends on; and whenever a rank function
witnesses that the depends relation is acyclic and every dependency names an
existing package, the function does succeed (so it fails only on a cyclic or
unresolvable configuration, and it always terminates rather than looping). -/
theorem ordered_by_dependencies_correct (c : Configuration) :
    (∀ l, c.ordered_by_dependencies = some l → (c.packages.map Prod.fst).Nodup →
      l.Perm c.packages ∧
      ∀ pre x post, l = pre ++ x :: post →
        ∀ dep ∈ x.2.depends, dep ∈ pre.map Prod.fst)
    ∧ (∀ rank : String → Nat,
      (∀ np ∈ c.packages, ∀ dep ∈ np.2.depends, rank dep < rank np.1) →
      (∀ np ∈ c.packages, ∀ dep ∈ np.2.depends, dep ∈ c.packages.map Prod.fst) →
      ∃ l, c.ordered_by_dependencies = some l) := by
  constructor
  · intro l hl hnodup
    obtain ⟨tail, heq, hperm, htopo⟩ :=
      orderLoop_sound c.packages.length c.packages [] l hnodup hl
    simp only [List.nil_append] at heq
    subst heq
    refine ⟨hperm, fun pre x post hsplit dep hdep => ?_⟩
    simpa using htopo pre x post hsplit dep hdep
  · intro rank hacyc hclosed
    have hsome := orderLoop_complete rank c.packages.length c.packages []
      (le_refl _) hacyc
      (fun np hnp dep hdep => Or.inr (hclosed np hnp dep hdep))
    exact Option.isSome_iff_exists.mp hsome

/-- C8 witness: a two-package configuration where `b` depends on `a`; the
ordering succeeds under the rank witnessing acyclicity, and the concrete
result is a dependency-respecting permutation. -/
theorem ordered_by_dependencies_correct_witness :
    (∃ l, Configuration.ordered_by_dependencies
      { packages := [("b", { depends := ["a"], files := [], vars := [] }),
                     ("a", { depends := [], files := [], vars := [] })],
        vars := [] } = some l)
    ∧ (([("a", { depends := [], files := [], vars := [] }),
         ("b", { depends := ["a"], files := [], vars := [] })]
          : List (String × Package)).Perm
        [("b", { depends := ["a"], files := [], vars := [] }),
         ("a", { depends := [], files := [], vars := [] })]
      ∧ ∀ pre (x : String × Package) post,
        ([("a", { depends := [], files := [], vars := [] }),
          ("b", { depends := ["a"], files := [], vars := [] })]
           : List (String × Package)) = pre ++ x :: post →
        ∀ dep ∈ x.2.depends, dep ∈ pre.map Prod.fst) := by
  constructor
  · exact (ordered_by_dependencies_correct _).2 (fun s => if s = "a" then 0 else 1)
      (by decide) (by decide)
  · exact (ordered_by_dependencies_correct
      { packages := [("b", { depends := ["a"], files := [], vars := [] }),
                     ("a", { depends := [], files := [], vars := [] })],
        vars := [] }).1
      [("a", { depends := [], files := [], vars := [] }),
       ("b", { depends := ["a"], files := [], vars := [] })] (by decide) (by decide)
